import Mathlib

/-!
Verification development for the secdec adaptive integration core
(`secdecutil`): the `Integral` evaluation-count state machine, the
lattice-based quasi-random (QMC) and Monte-Carlo (Cuba) backends, the
`WeightedIntegral` sum algebra, the `WeightedIntegralHandler` aggregation
of weighted sums, the `CQuad` one-dimensional quadrature guard, the
`MultiIntegrator` dimension dispatch, and the complex `Integrator`
specialization.

`MultiIntegrator` and the complex `Integrator` specialization are embedded
directly from `util/secdecutil/integrators/integrator.hpp`.  The
`amplitude.hpp` and `cquad.hpp` implementations are not part of the
available sources (only their test drivers are), so those components are
modelled from the specification, with the exact observable behaviour
(error-message strings, concrete lattice tables, expected counts) taken
from the repository's test drivers.
-/

/-- A value paired with an uncertainty (`secdecutil::UncorrelatedDeviation`),
parametrized by the scalar type.  Real results use `T = ℚ`; complex results
use `T = ℚ × ℚ` (real part, imaginary part). -/
structure UncorrelatedDeviation (T : Type) where
  value : T
  uncertainty : T
deriving Repr, DecidableEq

/-- Modelled from the spec: the mutable bookkeeping of `class Integral`
(`amplitude.hpp`, not among the available sources): realized evaluation
count, scheduled next evaluation count, cached result and cached elapsed
time.  Created uninitialized: count 0, no cached result, no cached time. -/
structure IntegralState where
  number_of_function_evaluations : ℕ
  next_number_of_function_evaluations : ℕ
  integral_result : Option (UncorrelatedDeviation ℚ)
  integration_time : Option ℚ
deriving Repr, DecidableEq

/-- Modelled from the spec: a fresh `Integral` has evaluation count 0, no
cached result and no cached time; its scheduled count starts at the
backend's configured minimum (`minn` / `mineval`), which is passed in by
the constructor. -/
def initialIntegralState (backend_minimum : ℕ) : IntegralState :=
  { number_of_function_evaluations := 0
    next_number_of_function_evaluations := backend_minimum
    integral_result := none
    integration_time := none }

/-- Modelled from the spec: `set_next_number_of_function_evaluations(n)`
clamps the scheduled count to the maximum of the current scheduled count
and `n`; requests to decrease effort are silently ignored. -/
def set_next_number_of_function_evaluations (n : ℕ) (st : IntegralState) :
    IntegralState :=
  { st with
    next_number_of_function_evaluations :=
      max st.next_number_of_function_evaluations n }

/-- Modelled from the spec: `get_number_of_function_evaluations()` returns
the realized evaluation count (0 before the first compute). -/
def get_number_of_function_evaluations (st : IntegralState) : ℕ :=
  st.number_of_function_evaluations

/-- Modelled from the spec: `get_next_number_of_function_evaluations()`
returns the scheduled evaluation count. -/
def get_next_number_of_function_evaluations (st : IntegralState) : ℕ :=
  st.next_number_of_function_evaluations

/-- Modelled from the spec: `get_integral_result()` fails with a
"not computed" error (message from the test driver) when called before the
first successful compute, and returns the cached result afterwards. -/
def get_integral_result (st : IntegralState) :
    Except String (UncorrelatedDeviation ℚ) :=
  match st.integral_result with
  | some r => .ok r
  | none => .error "class Integral: get_integral_result called before compute."

/-- Modelled from the spec: `get_integration_time()` fails with a
"not computed" error (message from the test driver) when called before the
first successful compute, and returns the cached elapsed time afterwards. -/
def get_integration_time (st : IntegralState) : Except String ℚ :=
  match st.integration_time with
  | some t => .ok t
  | none => .error "class Integral: get_integration_time called before compute."

/-- Modelled from the spec: a backend realizes a requested evaluation
count, returning the realized count together with the integration result
and the elapsed time, or fails (e.g. a lattice domain error) leaving the
`Integral` untouched. -/
structure Backend where
  realize : ℕ → Except String (ℕ × UncorrelatedDeviation ℚ × ℚ)

/-- A backend never realizes fewer evaluations than requested
(QMC rounds up to a lattice size, Cuba floors at its configured minimum). -/
def RealizesAtLeast (b : Backend) : Prop :=
  ∀ n r, b.realize n = .ok r → n ≤ r.1

/-- Modelled from the spec: `compute()` invokes the backend on the
currently scheduled count; on success it updates the realized count, the
scheduled count, the cached result and the elapsed time; on backend
failure the error propagates and the state is left untouched (the caller
keeps the old state). -/
def Integral.compute (b : Backend) (st : IntegralState) :
    Except String IntegralState :=
  match b.realize st.next_number_of_function_evaluations with
  | .ok (n, res, t) =>
      .ok { number_of_function_evaluations := n
            next_number_of_function_evaluations := n
            integral_result := some res
            integration_time := some t }
  | .error e => .error e

/-- The operations a client may interleave on one `Integral`. -/
inductive IntegralOp where
  | set_next (n : ℕ)
  | compute
deriving Repr, DecidableEq

/-- One client operation on an `Integral`; a failing `compute()` leaves
the state unchanged (the exception propagates past the state). -/
def Integral.step (b : Backend) (st : IntegralState) :
    IntegralOp → IntegralState
  | .set_next n => set_next_number_of_function_evaluations n st
  | .compute =>
      match Integral.compute b st with
      | .ok st' => st'
      | .error _ => st

/-- Run a sequence of client operations from a given state. -/
def Integral.run (b : Backend) (st : IntegralState) (ops : List IntegralOp) :
    IntegralState :=
  ops.foldl (Integral.step b) st

/-- State invariant of an `Integral`: the scheduled count never falls
below the realized count. -/
def integralInvariant (st : IntegralState) : Prop :=
  st.number_of_function_evaluations ≤ st.next_number_of_function_evaluations

/-- The least element of `table` that is at least `req`, if any
(the ascending lattice table makes this the first adequate lattice). -/
def leastGE (table : List ℕ) (req : ℕ) : Option ℕ :=
  match table with
  | [] => none
  | a :: l =>
      if req ≤ a then
        match leastGE l req with
        | none => some a
        | some b => some (min a b)
      else leastGE l req

/-- The largest tabulated lattice size (0 for an empty table). -/
def largestLattice (table : List ℕ) : ℕ := table.foldr max 0

/-- Modelled from the spec: the lattice-based quasi-random backend
(`QmcIntegral`, `amplitude.hpp` / `qmc.hpp`, not among the available
sources).  It selects the smallest tabulated lattice size that is at least
the requested count and never below the backend's configured minimum
`minn`; if the request exceeds the largest tabulated size it fails with a
domain error naming both the requested count and the largest available
lattice (message from the test driver).  `f` gives the integration result
obtained on a given lattice and `t` the elapsed time. -/
def qmcRealize (table : List ℕ) (minn : ℕ) (f : ℕ → UncorrelatedDeviation ℚ)
    (t : ℚ) (n : ℕ) : Except String (ℕ × UncorrelatedDeviation ℚ × ℚ) :=
  match leastGE table (max n minn) with
  | some lat => .ok (lat, f lat, t)
  | none =>
      .error ("class QmcIntegral: The requested number_of_function_evaluations ("
        ++ toString n
        ++ ") exceeds the largest available lattice ("
        ++ toString (largestLattice table) ++ ").")

/-- The QMC backend as a `Backend`. -/
def qmcBackend (table : List ℕ) (minn : ℕ) (f : ℕ → UncorrelatedDeviation ℚ)
    (t : ℚ) : Backend :=
  ⟨qmcRealize table minn f t⟩

/-- Modelled from the spec: a Monte-Carlo (Cuba) backend realizes the
requested count directly, floored at its configured minimum `mineval`. -/
def cubaRealize (mineval : ℕ) (f : ℕ → UncorrelatedDeviation ℚ) (t : ℚ)
    (n : ℕ) : Except String (ℕ × UncorrelatedDeviation ℚ × ℚ) :=
  .ok (max n mineval, f (max n mineval), t)

/-- The Cuba backend as a `Backend`. -/
def cubaBackend (mineval : ℕ) (f : ℕ → UncorrelatedDeviation ℚ) (t : ℚ) :
    Backend :=
  ⟨cubaRealize mineval f t⟩

/-- The five-entry ascending lattice table installed by the test driver
(`generatingvectors[65521] ... generatingvectors[327673]`). -/
def testLatticeTable : List ℕ := [65521, 131071, 196597, 262139, 327673]

/-- Modelled from the spec: a `WeightedIntegral` pairs a shared reference
to an `Integral` with a coefficient.  Pointer identity of the shared
reference is modelled by a numeric identifier. -/
structure WeightedIntegral where
  integral : ℕ
  coefficient : ℚ
deriving Repr, DecidableEq

/-- Modelled from the spec: a `Sum` is the ordered sequence of its
`WeightedIntegral` terms (`std::vector<WeightedIntegral<...>>`). -/
abbrev WeightedSum : Type := List WeightedIntegral

/-- Modelled from the spec: `operator*=` multiplies every term's
coefficient by the scalar and leaves the referenced `Integral` of each
term unchanged. -/
def WeightedSum.mul_assign (a : WeightedSum) (c : ℚ) : WeightedSum :=
  a.map fun wi => { wi with coefficient := wi.coefficient * c }

/-- Modelled from the spec: `sum * c` forwards to `*=`. -/
def WeightedSum.mul_coeff (a : WeightedSum) (c : ℚ) : WeightedSum :=
  WeightedSum.mul_assign a c

/-- Modelled from the spec: `c * sum` forwards to `*=` as well
(the commuted overload). -/
def coeff_mul_sum (c : ℚ) (a : WeightedSum) : WeightedSum :=
  WeightedSum.mul_assign a c

/-- Modelled from the spec: `operator+=` / `operator+` append all terms of
the right-hand sum to the left-hand sum without merging. -/
def WeightedSum.add (a b : WeightedSum) : WeightedSum := a ++ b

/-- Modelled from the spec: the net coefficient of an `Integral` in a
`Sum` — the exact algebraic sum of the coefficients of all terms that
reference that same `Integral` instance. -/
def netCoefficient (s : WeightedSum) (i : ℕ) : ℚ :=
  ((s.filter fun wi => wi.integral = i).map WeightedIntegral.coefficient).sum

/-- Modelled from the spec: the distinct `Integral` instances referenced
by a `Sum`. -/
def distinctIntegrals (s : WeightedSum) : List ℕ :=
  (s.map WeightedIntegral.integral).dedup

/-- Modelled from the spec: the handler's aggregate value of a `Sum`,
`Σ (net coefficient) · value(Integral)` over the distinct `Integral`
instances, for a given assignment `f` of computed results. -/
def sumValue (s : WeightedSum) (f : ℕ → UncorrelatedDeviation ℚ) : ℚ :=
  ((distinctIntegrals s).map fun i => netCoefficient s i * (f i).value).sum

/-- Modelled from the spec: the square of the handler's aggregate
uncertainty of a `Sum`, `Σ (net coefficient)² · uncertainty(Integral)²`
over the distinct `Integral` instances (the reported uncertainty is its
square root). -/
def sumUncertaintySq (s : WeightedSum) (f : ℕ → UncorrelatedDeviation ℚ) : ℚ :=
  ((distinctIntegrals s).map
    fun i => netCoefficient s i ^ 2 * (f i).uncertainty ^ 2).sum

/-- The third weighted sum of the test driver:
`{simple_integral, 12.5} + {other_integral, 1.2} + {other_integral, -1.2}`,
with `other_integral` referenced by the same `Integral` instance (id 1)
in both of its terms and `simple_integral` as id 0. -/
def testSumThree : WeightedSum :=
  WeightedSum.add (WeightedSum.add [⟨0, 25/2⟩] [⟨1, 6/5⟩]) [⟨1, -(6/5)⟩]

/-- An integrand container: a declared dimensionality (`int
number_of_integration_variables`) together with the integrand callable,
from a sample point to a scalar of type `α`. -/
structure IntegrandContainer (α : Type) where
  number_of_integration_variables : ℤ
  integrand : List ℚ → α

/-- Modelled from the spec: the `CQuad` deterministic quadrature backend
(`cquad.hpp`, not among the available sources).  `integrate` rejects any
integrand whose declared dimensionality is not 1 with an invalid-argument
error naming the actual dimensionality (message from the test driver),
without sampling the integrand; on a one-dimensional integrand the
underlying adaptive quadrature is abstracted by the oracle `quad`. -/
def cquadIntegrate (quad : IntegrandContainer ℚ → UncorrelatedDeviation ℚ)
    (ic : IntegrandContainer ℚ) :
    Except String (UncorrelatedDeviation ℚ) :=
  if ic.number_of_integration_variables ≠ 1 then
    .error ("\"CQuad\" can only be used for one dimensional integrands (got ndim="
      ++ toString ic.number_of_integration_variables ++ ").")
  else
    .ok (quad ic)

/-- `MultiIntegrator` (from `integrator.hpp`): two integrators and the
critical dimension at which dispatch switches from the low-dimensional to
the high-dimensional integrator.  The member integrators are embedded as
their `integrate` functions; `β` is the result type
(`UncorrelatedDeviation<return_t>`). -/
structure MultiIntegrator (α β : Type) where
  low_dim_integrator : IntegrandContainer α → β
  high_dim_integrator : IntegrandContainer α → β
  critical_dim : ℤ

/-- `MultiIntegrator::get_integrate` (from `integrator.hpp`): dispatch on
`ic.number_of_integration_variables < critical_dim`. -/
def MultiIntegrator.get_integrate (m : MultiIntegrator α β) :
    IntegrandContainer α → β :=
  fun ic =>
    if ic.number_of_integration_variables < m.critical_dim then
      m.low_dim_integrator ic
    else
      m.high_dim_integrator ic

/-- `Integrator::integrate` as inherited by `MultiIntegrator` (from
`integrator.hpp`): the stored closure calls `get_integrate()` on the
container. -/
def MultiIntegrator.integrate (m : MultiIntegrator α β)
    (ic : IntegrandContainer α) : β :=
  m.get_integrate ic

/-- A real-valued integrator (`Integrator<return_t, input_t>` from
`integrator.hpp`): only its `integrate` member is observable. -/
structure RealIntegrator where
  integrate : IntegrandContainer ℚ → UncorrelatedDeviation ℚ

/-- The real part of a complex integrand container
(`complex_to_real::real`, declared in `integrand_container.hpp`, not among
the available sources: keeps the dimensionality, takes the real component
of the integrand's value). -/
def complex_to_real_re (ic : IntegrandContainer (ℚ × ℚ)) :
    IntegrandContainer ℚ :=
  ⟨ic.number_of_integration_variables, fun x => (ic.integrand x).1⟩

/-- The imaginary part of a complex integrand container
(`complex_to_real::imag`). -/
def complex_to_real_im (ic : IntegrandContainer (ℚ × ℚ)) :
    IntegrandContainer ℚ :=
  ⟨ic.number_of_integration_variables, fun x => (ic.integrand x).2⟩

/-- The complex `Integrator` specialization (from `integrator.hpp`):
the `together` flag, the virtual `get_real_integrator` (whose default
implementation throws a runtime error) and the virtual
`get_together_integrate` (whose default implementation throws a runtime
error).  Complex scalars are (real, imaginary) pairs. -/
structure ComplexIntegrator where
  together : Bool
  get_real_integrator : Except String RealIntegrator
  get_together_integrate :
    Except String
      (IntegrandContainer (ℚ × ℚ) → UncorrelatedDeviation (ℚ × ℚ))

/-- The default complex `Integrator` constructor (from `integrator.hpp`):
`together` is initialized to `false` and both virtual hooks are the
base-class defaults, which throw runtime errors with the messages of
`integrator.hpp`. -/
def defaultComplexIntegrator : ComplexIntegrator :=
  { together := false
    get_real_integrator :=
      .error "Separate integration of real and imaginary part is not available because pointer to real-valued integrator is not implemented for this integrator. Try \"together = true\"."
    get_together_integrate :=
      .error "Simultaneous integration of real and imaginary part is not implemented for this integrator. Try \"together = false\"." }

/-- `Integrator::integrate` of the complex specialization (from
`integrator.hpp`): with `together` it delegates to
`get_together_integrate()`; otherwise it obtains a real-valued integrator
from `get_real_integrator()`, integrates the real and imaginary parts
separately, and pairs the two results component-wise. -/
def ComplexIntegrator.integrate (I : ComplexIntegrator)
    (ic : IntegrandContainer (ℚ × ℚ)) :
    Except String (UncorrelatedDeviation (ℚ × ℚ)) :=
  if I.together then
    match I.get_together_integrate with
    | .ok g => .ok (g ic)
    | .error e => .error e
  else
    match I.get_real_integrator with
    | .ok ri =>
        let real_part := ri.integrate (complex_to_real_re ic)
        let imag_part := ri.integrate (complex_to_real_im ic)
        .ok ⟨(real_part.value, imag_part.value),
             (real_part.uncertainty, imag_part.uncertainty)⟩
    | .error e => .error e


/-- A failed lattice lookup means every tabulated size is below the
request. -/
theorem leastGE_none_lt (table : List ℕ) (req : ℕ)
    (h : leastGE table req = none) : ∀ m ∈ table, m < req := by
  induction table with
  | nil => intro m hm; simp at hm
  | cons a l ih =>
    rw [leastGE] at h
    by_cases ha : req ≤ a
    · rw [if_pos ha] at h
      cases hrest : leastGE l req <;> rw [hrest] at h <;> cases h
    · rw [if_neg ha] at h
      intro m hm
      rcases List.mem_cons.mp hm with hma | hml
      · exact hma ▸ not_le.mp ha
      · exact ih h m hml

/-- A successful lattice lookup returns the least tabulated size that is
at least the request. -/
theorem leastGE_spec (table : List ℕ) (req lat : ℕ)
    (h : leastGE table req = some lat) :
    req ≤ lat ∧ lat ∈ table ∧ ∀ m ∈ table, req ≤ m → lat ≤ m := by
  induction table generalizing lat with
  | nil => simp [leastGE] at h
  | cons a l ih =>
    rw [leastGE] at h
    by_cases ha : req ≤ a
    · rw [if_pos ha] at h
      cases hrest : leastGE l req with
      | none =>
        rw [hrest] at h
        injection h with h
        subst h
        refine ⟨ha, List.mem_cons_self _ _, ?_⟩
        intro m hm hreq
        rcases List.mem_cons.mp hm with hma | hml
        · exact le_of_eq hma.symm
        · exact absurd hreq (not_le.mpr (leastGE_none_lt l req hrest m hml))
      | some b =>
        rw [hrest] at h
        injection h with h
        subst h
        obtain ⟨hb1, hb2, hb3⟩ := ih b hrest
        refine ⟨le_min ha hb1, ?_, ?_⟩
        · rcases le_total a b with hab | hab
          · rw [min_eq_left hab]; exact List.mem_cons_self _ _
          · rw [min_eq_right hab]; exact List.mem_cons_of_mem _ hb2
        · intro m hm hreq
          rcases List.mem_cons.mp hm with hma | hml
          · exact hma ▸ min_le_left a b
          · exact le_trans (min_le_right a b) (hb3 m hml hreq)
    · rw [if_neg ha] at h
      obtain ⟨hb1, hb2, hb3⟩ := ih lat h
      refine ⟨hb1, List.mem_cons_of_mem _ hb2, ?_⟩
      intro m hm hreq
      rcases List.mem_cons.mp hm with hma | hml
      · exact absurd (hma ▸ hreq) ha
      · exact hb3 m hml hreq

/-- If every tabulated size is below the request, the lookup fails. -/
theorem leastGE_eq_none_of_all_lt (table : List ℕ) (req : ℕ)
    (h : ∀ m ∈ table, m < req) : leastGE table req = none := by
  induction table with
  | nil => rfl
  | cons a l ih =>
    rw [leastGE]
    have ha : ¬ (req ≤ a) := not_le.mpr (h a (List.mem_cons_self _ _))
    rw [if_neg ha]
    exact ih fun m hm => h m (List.mem_cons_of_mem _ hm)

/-- The QMC backend never realizes fewer evaluations than requested. -/
theorem qmcBackend_realizes_at_least (table : List ℕ) (minn : ℕ)
    (f : ℕ → UncorrelatedDeviation ℚ) (t : ℚ) :
    RealizesAtLeast (qmcBackend table minn f t) := by
  intro n r h
  have h' : qmcRealize table minn f t n = .ok r := h
  cases hlat : leastGE table (max n minn) with
  | none => rw [qmcRealize, hlat] at h'; cases h'
  | some lat =>
    rw [qmcRealize, hlat] at h'
    injection h' with h'
    subst h'
    exact le_trans (le_max_left n minn) (leastGE_spec table _ lat hlat).1

/-- The Cuba backend never realizes fewer evaluations than requested. -/
theorem cubaBackend_realizes_at_least (mineval : ℕ)
    (f : ℕ → UncorrelatedDeviation ℚ) (t : ℚ) :
    RealizesAtLeast (cubaBackend mineval f t) := by
  intro n r h
  have h' : cubaRealize mineval f t n = .ok r := h
  rw [cubaRealize] at h'
  injection h' with h'
  subst h'
  exact le_max_left n mineval

/-- C4: for the lattice-based QMC backend, `compute()` realizes the
smallest tabulated lattice size that is at least the requested count and
never below the backend's configured minimum; with the ascending
five-entry table starting at 65521 and a requested count of 10, the first
`compute()` realizes exactly 65521 evaluations. -/
theorem qmc_compute_smallest_lattice :
    (∀ (table : List ℕ) (minn : ℕ) (f : ℕ → UncorrelatedDeviation ℚ) (t : ℚ)
       (n : ℕ) (r : ℕ × UncorrelatedDeviation ℚ × ℚ),
       qmcRealize table minn f t n = .ok r →
       r.1 ∈ table ∧ n ≤ r.1 ∧ minn ≤ r.1 ∧
         ∀ m ∈ table, n ≤ m → minn ≤ m → r.1 ≤ m) ∧
    (∀ (f : ℕ → UncorrelatedDeviation ℚ) (t : ℚ),
       Integral.compute (qmcBackend testLatticeTable 8 f t)
         (set_next_number_of_function_evaluations 10 (initialIntegralState 8))
       = .ok { number_of_function_evaluations := 65521,
               next_number_of_function_evaluations := 65521,
               integral_result := some (f 65521),
               integration_time := some t }) := by
  constructor
  · intro table minn f t n r h
    cases hlat : leastGE table (max n minn) with
    | none => rw [qmcRealize, hlat] at h; cases h
    | some lat =>
      rw [qmcRealize, hlat] at h
      injection h with h
      subst h
      obtain ⟨h1, h2, h3⟩ := leastGE_spec table (max n minn) lat hlat
      exact ⟨h2, le_trans (le_max_left n minn) h1,
        le_trans (le_max_right n minn) h1,
        fun m hm hn hminn => h3 m hm (max_le hn hminn)⟩
  · intro f t
    rfl

/-- Closed instance of `qmc_compute_smallest_lattice`: on the test table,
requesting 10 with minimum 8 realizes 65521, which is tabulated, at least
the request and the minimum, and minimal among adequate lattices. -/
theorem qmc_compute_smallest_lattice_witness :
    65521 ∈ testLatticeTable ∧ (10 : ℕ) ≤ 65521 ∧ (8 : ℕ) ≤ 65521 ∧
      ∀ m ∈ testLatticeTable, 10 ≤ m → 8 ≤ m → 65521 ≤ m :=
  qmc_compute_smallest_lattice.1 testLatticeTable 8 (fun _ => ⟨0, 0⟩) 0 10
    (65521, ⟨0, 0⟩, 0) rfl

/-- C5: when the scheduled evaluation count exceeds every tabulated
lattice size, the QMC `compute()` fails with a domain error naming both
the requested count and the largest available lattice, and the
`Integral`'s state (realized count, cached result, cached time) is
unchanged afterwards. -/
theorem qmc_compute_domain_error (table : List ℕ) (minn : ℕ)
    (f : ℕ → UncorrelatedDeviation ℚ) (t : ℚ) (st : IntegralState)
    (h : ∀ m ∈ table, m < get_next_number_of_function_evaluations st) :
    Integral.compute (qmcBackend table minn f t) st
      = .error ("class QmcIntegral: The requested number_of_function_evaluations ("
          ++ toString (get_next_number_of_function_evaluations st)
          ++ ") exceeds the largest available lattice ("
          ++ toString (largestLattice table) ++ ").") ∧
    Integral.step (qmcBackend table minn f t) st .compute = st := by
  have hnone :
      leastGE table (max st.next_number_of_function_evaluations minn) = none :=
    leastGE_eq_none_of_all_lt _ _ fun m hm =>
      lt_of_lt_of_le (h m hm) (le_max_left _ _)
  have hreal : (qmcBackend table minn f t).realize
        st.next_number_of_function_evaluations
      = .error ("class QmcIntegral: The requested number_of_function_evaluations ("
          ++ toString st.next_number_of_function_evaluations
          ++ ") exceeds the largest available lattice ("
          ++ toString (largestLattice table) ++ ").") := by
    show qmcRealize table minn f t st.next_number_of_function_evaluations = _
    rw [qmcRealize, hnone]
  have hcomp : Integral.compute (qmcBackend table minn f t) st
      = .error ("class QmcIntegral: The requested number_of_function_evaluations ("
          ++ toString st.next_number_of_function_evaluations
          ++ ") exceeds the largest available lattice ("
          ++ toString (largestLattice table) ++ ").") := by
    rw [Integral.compute, hreal]
  exact ⟨hcomp, by rw [Integral.step, hcomp]⟩

/-- Closed instance of `qmc_compute_domain_error`: requesting 400000 on
the test table produces exactly the domain-error message of the test
driver and leaves the state untouched. -/
theorem qmc_compute_domain_error_witness :
    Integral.compute (qmcBackend testLatticeTable 8 (fun _ => ⟨0, 0⟩) 0)
        (initialIntegralState 400000)
      = .error "class QmcIntegral: The requested number_of_function_evaluations (400000) exceeds the largest available lattice (327673)." ∧
    Integral.step (qmcBackend testLatticeTable 8 (fun _ => ⟨0, 0⟩) 0)
        (initialIntegralState 400000) .compute
      = initialIntegralState 400000 :=
  qmc_compute_domain_error testLatticeTable 8 (fun _ => ⟨0, 0⟩) 0
    (initialIntegralState 400000) (by decide)

/-- One client operation preserves the scheduled-at-least-realized
invariant. -/
theorem step_invariant (b : Backend) (_hb : RealizesAtLeast b)
    (st : IntegralState) (op : IntegralOp) (hinv : integralInvariant st) :
    integralInvariant (Integral.step b st op) := by
  cases op with
  | set_next n =>
    show st.number_of_function_evaluations ≤ _
    exact le_trans hinv (le_max_left _ _)
  | compute =>
    show integralInvariant (match Integral.compute b st with
      | .ok st' => st' | .error _ => st)
    cases hr : b.realize st.next_number_of_function_evaluations with
    | ok r =>
      obtain ⟨n, res, t⟩ := r
      rw [Integral.compute, hr]
      exact le_refl n
    | error e =>
      rw [Integral.compute, hr]
      exact hinv

/-- One client operation never decreases the realized evaluation count. -/
theorem step_num_mono (b : Backend) (hb : RealizesAtLeast b)
    (st : IntegralState) (op : IntegralOp) (hinv : integralInvariant st) :
    st.number_of_function_evaluations
      ≤ (Integral.step b st op).number_of_function_evaluations := by
  cases op with
  | set_next n => exact le_refl _
  | compute =>
    show st.number_of_function_evaluations ≤
      (match Integral.compute b st with
        | .ok st' => st' | .error _ => st).number_of_function_evaluations
    cases hr : b.realize st.next_number_of_function_evaluations with
    | ok r =>
      obtain ⟨n, res, t⟩ := r
      rw [Integral.compute, hr]
      exact le_trans hinv (hb _ _ hr)
    | error e =>
      rw [Integral.compute, hr]

/-- Running any operation sequence preserves the invariant and never
decreases the realized evaluation count. -/
theorem run_invariant_num_mono (b : Backend) (hb : RealizesAtLeast b)
    (ops : List IntegralOp) (st : IntegralState)
    (hinv : integralInvariant st) :
    integralInvariant (Integral.run b st ops) ∧
      st.number_of_function_evaluations
        ≤ (Integral.run b st ops).number_of_function_evaluations := by
  induction ops generalizing st with
  | nil => exact ⟨hinv, le_refl _⟩
  | cons op rest ih =>
    have hstep := step_invariant b hb st op hinv
    obtain ⟨h1, h2⟩ := ih (Integral.step b st op) hstep
    exact ⟨h1, le_trans (step_num_mono b hb st op hinv) h2⟩

/-- C2: for every `Integral` over a backend that never realizes fewer
evaluations than requested, the value of
`get_number_of_function_evaluations()` is 0 before the first compute and
never decreases across any sequence of `compute()` and
`set_next_number_of_function_evaluations()` calls. -/
theorem num_evaluations_monotone (b : Backend) (hb : RealizesAtLeast b)
    (n0 : ℕ) (ops extra : List IntegralOp) :
    get_number_of_function_evaluations (initialIntegralState n0) = 0 ∧
    get_number_of_function_evaluations
        (Integral.run b (initialIntegralState n0) ops)
      ≤ get_number_of_function_evaluations
          (Integral.run b (initialIntegralState n0) (ops ++ extra)) := by
  refine ⟨rfl, ?_⟩
  simp only [Integral.run, List.foldl_append]
  have hinv : integralInvariant (Integral.run b (initialIntegralState n0) ops) :=
    (run_invariant_num_mono b hb ops (initialIntegralState n0)
      (Nat.zero_le n0)).1
  exact (run_invariant_num_mono b hb extra _ hinv).2

/-- Closed instance of `num_evaluations_monotone`: on the QMC test
backend, two successive computes (with an intervening request for 200000
evaluations) never lower the realized count. -/
theorem num_evaluations_monotone_witness :
    get_number_of_function_evaluations (initialIntegralState 8) = 0 ∧
    get_number_of_function_evaluations
        (Integral.run (qmcBackend testLatticeTable 8 (fun _ => ⟨0, 0⟩) 0)
          (initialIntegralState 8) [.set_next 10, .compute])
      ≤ get_number_of_function_evaluations
          (Integral.run (qmcBackend testLatticeTable 8 (fun _ => ⟨0, 0⟩) 0)
            (initialIntegralState 8)
            ([.set_next 10, .compute] ++ [.set_next 200000, .compute])) :=
  num_evaluations_monotone (qmcBackend testLatticeTable 8 (fun _ => ⟨0, 0⟩) 0)
    (qmcBackend_realizes_at_least testLatticeTable 8 (fun _ => ⟨0, 0⟩) 0)
    8 [.set_next 10, .compute] [.set_next 200000, .compute]

/-- A successful backend realization determines the state after
`compute()`. -/
theorem compute_ok (b : Backend) (st : IntegralState) (n : ℕ)
    (res : UncorrelatedDeviation ℚ) (t : ℚ)
    (hr : b.realize st.next_number_of_function_evaluations = .ok (n, res, t)) :
    Integral.compute b st
      = .ok { number_of_function_evaluations := n
              next_number_of_function_evaluations := n
              integral_result := some res
              integration_time := some t } := by
  rw [Integral.compute, hr]

/-- A failing backend realization makes `compute()` propagate the error. -/
theorem compute_error (b : Backend) (st : IntegralState) (e : String)
    (hr : b.realize st.next_number_of_function_evaluations = .error e) :
    Integral.compute b st = .error e := by
  rw [Integral.compute, hr]

/-- C3: `set_next_number_of_function_evaluations(n)` clamps the scheduled
count to the maximum of the current scheduled count and `n`; a request to
decrease effort is silently ignored (the scheduled count is unchanged),
and `set_next` followed by a successful `compute()` never results in a
realized count below the count before the call. -/
theorem set_next_clamps (b : Backend) (hb : RealizesAtLeast b)
    (st : IntegralState) (hinv : integralInvariant st) (n : ℕ) :
    get_next_number_of_function_evaluations
        (set_next_number_of_function_evaluations n st)
      = max (get_next_number_of_function_evaluations st) n ∧
    (n ≤ get_next_number_of_function_evaluations st →
      get_next_number_of_function_evaluations
          (set_next_number_of_function_evaluations n st)
        = get_next_number_of_function_evaluations st) ∧
    ∀ st', Integral.compute b (set_next_number_of_function_evaluations n st)
        = .ok st' →
      get_number_of_function_evaluations st
        ≤ get_number_of_function_evaluations st' := by
  refine ⟨rfl, fun h => max_eq_left h, ?_⟩
  intro st' h
  cases hr : b.realize (max st.next_number_of_function_evaluations n) with
  | ok r =>
    obtain ⟨m, res, t⟩ := r
    rw [compute_ok b (set_next_number_of_function_evaluations n st) m res t hr]
      at h
    injection h with h
    subst h
    exact le_trans hinv (le_trans (le_max_left _ _) (hb _ _ hr))
  | error e =>
    rw [compute_error b (set_next_number_of_function_evaluations n st) e hr]
      at h
    cases h

/-- Closed instance of `set_next_clamps` on the QMC test backend: the
scheduled count after requesting 10 from the fresh state equals the
clamped maximum, and the realized count after the subsequent compute does
not drop below the prior realized count. -/
theorem set_next_clamps_witness :
    get_next_number_of_function_evaluations
        (set_next_number_of_function_evaluations 10 (initialIntegralState 8))
      = max (get_next_number_of_function_evaluations (initialIntegralState 8)) 10 ∧
    get_number_of_function_evaluations (initialIntegralState 8)
      ≤ get_number_of_function_evaluations
          { number_of_function_evaluations := 65521
            next_number_of_function_evaluations := 65521
            integral_result := some ⟨0, 0⟩
            integration_time := some 0 } :=
  ⟨(set_next_clamps (qmcBackend testLatticeTable 8 (fun _ => ⟨0, 0⟩) 0)
      (qmcBackend_realizes_at_least testLatticeTable 8 (fun _ => ⟨0, 0⟩) 0)
      (initialIntegralState 8) (Nat.zero_le 8) 10).1,
   (set_next_clamps (qmcBackend testLatticeTable 8 (fun _ => ⟨0, 0⟩) 0)
      (qmcBackend_realizes_at_least testLatticeTable 8 (fun _ => ⟨0, 0⟩) 0)
      (initialIntegralState 8) (Nat.zero_le 8) 10).2.2 _ rfl⟩

/-- Applying any sequence of `set_next_number_of_function_evaluations`
calls leaves the cached result, the cached time and the realized count
untouched. -/
theorem foldl_set_next_preserves (ns : List ℕ) (s : IntegralState) :
    (ns.foldl (fun acc n => set_next_number_of_function_evaluations n acc)
        s).integral_result = s.integral_result ∧
    (ns.foldl (fun acc n => set_next_number_of_function_evaluations n acc)
        s).integration_time = s.integration_time ∧
    (ns.foldl (fun acc n => set_next_number_of_function_evaluations n acc)
        s).number_of_function_evaluations = s.number_of_function_evaluations := by
  induction ns generalizing s with
  | nil => exact ⟨rfl, rfl, rfl⟩
  | cons a l ih => exact ih (set_next_number_of_function_evaluations a s)

/-- C6: before the first successful `compute()` — that is, on the fresh
state after any number of `set_next_number_of_function_evaluations`
calls — `get_integral_result()` and `get_integration_time()` fail with the
`integral_not_computed_error` messages, while
`get_number_of_function_evaluations()` returns 0 without error. -/
theorem getters_before_compute (n0 : ℕ) (ns : List ℕ) :
    get_integral_result
        (ns.foldl (fun acc n => set_next_number_of_function_evaluations n acc)
          (initialIntegralState n0))
      = .error "class Integral: get_integral_result called before compute." ∧
    get_integration_time
        (ns.foldl (fun acc n => set_next_number_of_function_evaluations n acc)
          (initialIntegralState n0))
      = .error "class Integral: get_integration_time called before compute." ∧
    get_number_of_function_evaluations
        (ns.foldl (fun acc n => set_next_number_of_function_evaluations n acc)
          (initialIntegralState n0))
      = 0 := by
  obtain ⟨h1, h2, h3⟩ := foldl_set_next_preserves ns (initialIntegralState n0)
  refine ⟨?_, ?_, h3⟩
  · rw [get_integral_result, h1]
    rfl
  · rw [get_integration_time, h2]
    rfl

/-- C7: for every integrand container whose declared dimensionality is not
1, `CQuad::integrate` fails with an invalid-argument error naming the
actual dimensionality, independently of the underlying quadrature (so
before any sampling of the integrand occurs). -/
theorem cquad_rejects_non_one_dimensional
    (quad quad' : IntegrandContainer ℚ → UncorrelatedDeviation ℚ)
    (ic : IntegrandContainer ℚ)
    (h : ic.number_of_integration_variables ≠ 1) :
    cquadIntegrate quad ic
      = .error ("\"CQuad\" can only be used for one dimensional integrands (got ndim="
          ++ toString ic.number_of_integration_variables ++ ").") ∧
    cquadIntegrate quad ic = cquadIntegrate quad' ic := by
  have e : ∀ g : IntegrandContainer ℚ → UncorrelatedDeviation ℚ,
      cquadIntegrate g ic
        = .error ("\"CQuad\" can only be used for one dimensional integrands (got ndim="
            ++ toString ic.number_of_integration_variables ++ ").") := by
    intro g
    rw [cquadIntegrate, if_pos h]
  exact ⟨e quad, (e quad).trans (e quad').symm⟩

/-- Closed instance of `cquad_rejects_non_one_dimensional`: a
four-dimensional integrand produces exactly the error message of the test
driver. -/
theorem cquad_rejects_non_one_dimensional_witness :
    ((4 : ℤ) ≠ 1) ∧
    cquadIntegrate (fun _ => ⟨0, 0⟩) ⟨4, fun _ => 0⟩
      = .error "\"CQuad\" can only be used for one dimensional integrands (got ndim=4)." :=
  ⟨by decide,
   (cquad_rejects_non_one_dimensional (fun _ => ⟨0, 0⟩) (fun _ => ⟨0, 0⟩)
      ⟨4, fun _ => 0⟩ (by decide)).1⟩

/-- C8: uniform scaling of a sum of `WeightedIntegral`s multiplies the
coefficient of every term by the scalar, is the same operation whether
written `c * sum` or `sum * c`, and leaves the number of terms and the
referenced `Integral`s (in order) unchanged. -/
theorem weighted_sum_scaling (a : WeightedSum) (c : ℚ) :
    WeightedSum.mul_coeff a c = coeff_mul_sum c a ∧
    (WeightedSum.mul_assign a c).length = a.length ∧
    (WeightedSum.mul_assign a c).map WeightedIntegral.integral
      = a.map WeightedIntegral.integral ∧
    (WeightedSum.mul_assign a c).map WeightedIntegral.coefficient
      = a.map (fun wi => wi.coefficient * c) := by
  refine ⟨rfl, ?_, ?_, ?_⟩
  · simp [WeightedSum.mul_assign]
  · simp [WeightedSum.mul_assign]
  · simp [WeightedSum.mul_assign]

/-- C9: `MultiIntegrator.integrate` dispatches to the low-dimensional
integrator exactly when the integrand's dimensionality is strictly below
`critical_dim`, and to the high-dimensional integrator otherwise (so a
dimensionality equal to `critical_dim` goes to the high-dimensional
integrator). -/
theorem multi_integrator_dispatch {α β : Type} (m : MultiIntegrator α β)
    (ic : IntegrandContainer α) :
    (ic.number_of_integration_variables < m.critical_dim →
      m.integrate ic = m.low_dim_integrator ic) ∧
    (m.critical_dim ≤ ic.number_of_integration_variables →
      m.integrate ic = m.high_dim_integrator ic) := by
  constructor
  · intro h
    show (if ic.number_of_integration_variables < m.critical_dim then
        m.low_dim_integrator ic else m.high_dim_integrator ic)
      = m.low_dim_integrator ic
    exact if_pos h
  · intro h
    show (if ic.number_of_integration_variables < m.critical_dim then
        m.low_dim_integrator ic else m.high_dim_integrator ic)
      = m.high_dim_integrator ic
    exact if_neg (not_lt.mpr h)

/-- Closed instance of `multi_integrator_dispatch`: an integrand whose
dimensionality equals `critical_dim` is handled by the high-dimensional
integrator. -/
theorem multi_integrator_dispatch_witness :
    ((3 : ℤ) ≤ 3) ∧
    (MultiIntegrator.mk (fun _ => (0 : ℚ)) (fun _ => (1 : ℚ)) 3).integrate
        ⟨3, fun _ => (0 : ℚ)⟩
      = 1 :=
  ⟨by decide,
   (multi_integrator_dispatch
      (MultiIntegrator.mk (fun _ => (0 : ℚ)) (fun _ => (1 : ℚ)) 3)
      ⟨3, fun _ => (0 : ℚ)⟩).2 (by decide)⟩

/-- C10: a default-constructed complex integrator has `together = false`;
with a real-valued integrator available, `integrate` integrates the real
and the imaginary part of the integrand separately and pairs the two
results component-wise; with neither hook implemented it fails with the
runtime error of the base class. -/
theorem complex_integrator_separate_parts :
    defaultComplexIntegrator.together = false ∧
    (∀ (ri : RealIntegrator) (ic : IntegrandContainer (ℚ × ℚ)),
      ComplexIntegrator.integrate
          { defaultComplexIntegrator with get_real_integrator := .ok ri } ic
        = .ok ⟨((ri.integrate (complex_to_real_re ic)).value,
                (ri.integrate (complex_to_real_im ic)).value),
               ((ri.integrate (complex_to_real_re ic)).uncertainty,
                (ri.integrate (complex_to_real_im ic)).uncertainty)⟩) ∧
    (∀ ic : IntegrandContainer (ℚ × ℚ),
      defaultComplexIntegrator.integrate ic
        = .error "Separate integration of real and imaginary part is not available because pointer to real-valued integrator is not implemented for this integrator. Try \"together = true\".") :=
  ⟨rfl, fun _ _ => rfl, fun _ => rfl⟩

/-- Summing a function over the deduplicated elements of a list is the
finite sum over its set of elements. -/
theorem sum_map_dedup (l : List ℕ) (g : ℕ → ℚ) :
    (l.dedup.map g).sum = ∑ j in l.toFinset, g j := rfl

/-- Net coefficients are additive under sum concatenation. -/
theorem netCoefficient_append (s r : WeightedSum) (i : ℕ) :
    netCoefficient (s ++ r) i = netCoefficient s i + netCoefficient r i := by
  simp [netCoefficient, List.filter_append]

/-- The two-term sum `+c·I − c·I` has net coefficient 0 everywhere. -/
theorem netCoefficient_pair (i j : ℕ) (c : ℚ) :
    netCoefficient [⟨i, c⟩, ⟨i, -c⟩] j = 0 := by
  by_cases h : i = j <;> simp [netCoefficient, h]

/-- An `Integral` referenced by no term has net coefficient 0. -/
theorem netCoefficient_zero_of_not_mem (s : WeightedSum) (i : ℕ)
    (h : i ∉ s.map WeightedIntegral.integral) : netCoefficient s i = 0 := by
  induction s with
  | nil => rfl
  | cons wi rest ih =>
    simp only [List.map_cons, List.mem_cons, not_or] at h
    have hfilter : (wi :: rest).filter (fun w => w.integral = i)
        = rest.filter (fun w => w.integral = i) := by
      rw [List.filter_cons_of_neg]
      simp only [decide_eq_true_eq]
      exact Ne.symm h.1
    rw [netCoefficient, hfilter]
    exact ih h.2

/-- Any aggregate over the distinct `Integral`s of a sum that depends only
on net coefficients is unchanged by appending a cancelling `+c·I − c·I`
pair, provided a zero net coefficient contributes zero. -/
theorem aggregate_cancel (s : WeightedSum) (i : ℕ) (c : ℚ) (g : ℚ → ℕ → ℚ)
    (hg : ∀ j, g 0 j = 0) :
    ((distinctIntegrals (WeightedSum.add s [⟨i, c⟩, ⟨i, -c⟩])).map
        (fun j => g (netCoefficient (WeightedSum.add s [⟨i, c⟩, ⟨i, -c⟩]) j) j)).sum
      = ((distinctIntegrals s).map (fun j => g (netCoefficient s j) j)).sum := by
  have hnet : ∀ j, netCoefficient (WeightedSum.add s [⟨i, c⟩, ⟨i, -c⟩]) j
      = netCoefficient s j := by
    intro j
    rw [WeightedSum.add, netCoefficient_append, netCoefficient_pair, add_zero]
  rw [distinctIntegrals, distinctIntegrals, sum_map_dedup, sum_map_dedup]
  have hids : ((WeightedSum.add s [⟨i, c⟩, ⟨i, -c⟩]).map
        WeightedIntegral.integral).toFinset
      = insert i (s.map WeightedIntegral.integral).toFinset := by
    rw [WeightedSum.add, List.map_append, List.toFinset_append]
    show _ ∪ ([i, i].toFinset) = _
    rw [show ([i, i].toFinset : Finset ℕ) = {i} by simp]
    rw [Finset.union_comm, ← Finset.insert_eq]
  rw [hids]
  rw [Finset.sum_congr rfl (fun j _ => by rw [hnet j])]
  by_cases hi : i ∈ (s.map WeightedIntegral.integral).toFinset
  · rw [Finset.insert_eq_self.mpr hi]
  · rw [Finset.sum_insert hi,
      netCoefficient_zero_of_not_mem s i (by simpa using hi), hg, zero_add]

/-- C1: the handler sums coefficients of terms referencing the same
`Integral` instance exactly, before any uncertainty combination: appending
`+c·I` and `−c·I` for the same `Integral` to any sum changes neither its
aggregate value nor its aggregate squared uncertainty; in particular the
test sum `{12.5·A} + {1.2·B} + {−1.2·B}` (ids A = 0, B = 1) aggregates to
`12.5 · value(A)` with squared uncertainty `12.5² · uncertainty(A)²`,
independently of B's computed value and uncertainty, and is within a
relative `eps` of `12.5/24` whenever A's value is within a relative `eps`
of `1/24`. -/
theorem weighted_sum_identity_cancellation :
    (∀ (s : WeightedSum) (i : ℕ) (c : ℚ) (f : ℕ → UncorrelatedDeviation ℚ),
      sumValue (WeightedSum.add s [⟨i, c⟩, ⟨i, -c⟩]) f = sumValue s f ∧
      sumUncertaintySq (WeightedSum.add s [⟨i, c⟩, ⟨i, -c⟩]) f
        = sumUncertaintySq s f) ∧
    (∀ (f : ℕ → UncorrelatedDeviation ℚ) (eps : ℚ),
      |(f 0).value - 1/24| ≤ eps * (1/24) →
      sumValue testSumThree f = 25/2 * (f 0).value ∧
      sumUncertaintySq testSumThree f = (25/2)^2 * (f 0).uncertainty^2 ∧
      |sumValue testSumThree f - 25/2 * (1/24)| ≤ eps * (25/2 * (1/24))) := by
  constructor
  · intro s i c f
    exact ⟨aggregate_cancel s i c (fun q j => q * (f j).value)
        (fun _ => zero_mul _),
      aggregate_cancel s i c (fun q j => q ^ 2 * (f j).uncertainty ^ 2)
        (fun _ => by norm_num)⟩
  · intro f eps hA
    have hd : distinctIntegrals testSumThree = [0, 1] := by decide
    have h0 : netCoefficient testSumThree 0 = 25/2 := by
      norm_num [netCoefficient, testSumThree, WeightedSum.add]
    have h1 : netCoefficient testSumThree 1 = 0 := by
      norm_num [netCoefficient, testSumThree, WeightedSum.add]
    have hv : sumValue testSumThree f = 25/2 * (f 0).value := by
      rw [sumValue, hd]
      simp [h0, h1]
    have hu : sumUncertaintySq testSumThree f
        = (25/2)^2 * (f 0).uncertainty^2 := by
      rw [sumUncertaintySq, hd]
      simp [h0, h1]
    refine ⟨hv, hu, ?_⟩
    rw [hv]
    have hfac : (25/2 : ℚ) * (f 0).value - 25/2 * (1/24)
        = 25/2 * ((f 0).value - 1/24) := by ring
    rw [hfac, abs_mul, show |(25/2 : ℚ)| = 25/2 by norm_num]
    calc (25/2 : ℚ) * |(f 0).value - 1/24|
        ≤ 25/2 * (eps * (1/24)) :=
          mul_le_mul_of_nonneg_left hA (by norm_num)
      _ = eps * (25/2 * (1/24)) := by ring

/-- Closed instance of `weighted_sum_identity_cancellation`: with A
computed exactly as 1/24, the three-term test sum aggregates exactly to
12.5/24 = 25/48, whatever B's result. -/
theorem weighted_sum_identity_cancellation_witness :
    sumValue testSumThree (fun _ => ⟨1/24, 1⟩) = 25/2 * (1/24) ∧
    |sumValue testSumThree (fun _ => ⟨1/24, 1⟩) - 25/2 * (1/24)|
      ≤ 0 * (25/2 * (1/24)) :=
  ⟨(weighted_sum_identity_cancellation.2 (fun _ => ⟨1/24, 1⟩) 0
      (by norm_num)).1,
   (weighted_sum_identity_cancellation.2 (fun _ => ⟨1/24, 1⟩) 0
      (by norm_num)).2.2⟩
